import Mathlib

/-!
Verification of the slimproto client codebase (src/slim/message.py and
src/slim/client.py) against its natural-language specification.

Bytes are modelled as lists of natural numbers (each byte < 256 on real
data).  Python struct format characters are modelled by the Fmt type;
field values by SlimValue (Python int, bytes and str values are kept
apart, since the code treats them differently).  Fallible operations
return Except String.
-/

namespace Slim

abbrev Bytes := List Nat

/-- big-endian encoding of a natural number into w bytes
(as produced by the struct module for the formats B, H, I, L, Q). -/
def beBytes : Nat → Nat → Bytes
  | 0, _ => []
  | w + 1, n => beBytes w (n / 256) ++ [n % 256]

/-- big-endian decoding of a byte string into a natural number. -/
def beDecode (bs : Bytes) : Nat := bs.foldl (fun a b => a * 256 + b) 0

/-- Python str.upper on one ASCII code point. -/
def asciiUpperChar (c : Nat) : Nat := if 97 ≤ c ∧ c ≤ 122 then c - 32 else c

/-- Python str.lower on one ASCII code point. -/
def asciiLowerChar (c : Nat) : Nat := if 65 ≤ c ∧ c ≤ 90 then c + 32 else c

def asciiUpper (s : Bytes) : Bytes := s.map asciiUpperChar

def asciiLower (s : Bytes) : Bytes := s.map asciiLowerChar

/-- the ASCII codes of a Lean string, used to write protocol names. -/
def codes (s : String) : Bytes := s.data.map Char.toNat

/-- struct pads a short value of a fixed-size string field with zero
bytes and truncates a long one, to exactly n bytes. -/
def padTrunc (n : Nat) (bs : Bytes) : Bytes :=
  bs.take n ++ List.replicate (n - bs.length) 0

/-- the struct format characters used by the message structures:
B (unsigned byte), b (signed byte), c (one-byte bytes), H, L, I, Q
(unsigned big-endian 2/4/4/8 bytes) and Ns (fixed-size byte string). -/
inductive Fmt where
  | uB
  | sb
  | ch
  | uH
  | uL
  | uI
  | uQ
  | fstr (n : Nat)
deriving DecidableEq, Repr

def fmtSize : Fmt → Nat
  | .uB => 1
  | .sb => 1
  | .ch => 1
  | .uH => 2
  | .uL => 4
  | .uI => 4
  | .uQ => 8
  | .fstr n => n

/-- struct.Struct(format_string).size: the sum of the field widths. -/
def structSize (fs : List Fmt) : Nat := (fs.map fmtSize).sum

/-- a field value: a Python int (unsigned formats), a Python int that
may be negative (signed byte), a bytes value, a str value (by its code
points), or None (unset). -/
inductive SlimValue where
  | vNat (n : Nat)
  | vInt (i : Int)
  | vBytes (bs : Bytes)
  | vStr (cs : Bytes)
  | vNone
deriving DecidableEq, Repr

/-- struct.pack of a single field; errors mirror struct.error on a
value of the wrong type or out of range. -/
def packFmt : Fmt → SlimValue → Except String Bytes
  | .uB, .vNat n => if n < 256 then .ok [n] else .error "ubyte format requires 0 <= number <= 255"
  | .uH, .vNat n => if n < 2 ^ 16 then .ok (beBytes 2 n) else .error "ushort format requires 0 <= number <= 65535"
  | .uL, .vNat n => if n < 2 ^ 32 then .ok (beBytes 4 n) else .error "argument out of range"
  | .uI, .vNat n => if n < 2 ^ 32 then .ok (beBytes 4 n) else .error "argument out of range"
  | .uQ, .vNat n => if n < 2 ^ 64 then .ok (beBytes 8 n) else .error "argument out of range"
  | .sb, .vInt i =>
      if -128 ≤ i ∧ i < 128 then .ok [(i + 256).toNat % 256]
      else .error "byte format requires -128 <= number <= 127"
  | .ch, .vBytes bs => if bs.length = 1 then .ok bs else .error "char format requires a bytes object of length 1"
  | .fstr n, .vBytes bs => .ok (padTrunc n bs)
  | _, _ => .error "required argument is not of the right type"

/-- struct.pack over a whole format string: fields packed in declared
order and concatenated. -/
def packFields : List Fmt → List SlimValue → Except String Bytes
  | [], [] => .ok []
  | f :: fs, v :: vs => do
      let b ← packFmt f v
      let rest ← packFields fs vs
      .ok (b ++ rest)
  | _, _ => .error "pack expected a different number of arguments"

/-- struct.unpack of a single field from exactly its bytes. -/
def unpackFmt : Fmt → Bytes → SlimValue
  | .uB, bs => .vNat (beDecode bs)
  | .uH, bs => .vNat (beDecode bs)
  | .uL, bs => .vNat (beDecode bs)
  | .uI, bs => .vNat (beDecode bs)
  | .uQ, bs => .vNat (beDecode bs)
  | .sb, bs => if beDecode bs < 128 then .vInt (beDecode bs) else .vInt ((beDecode bs : Int) - 256)
  | .ch, bs => .vBytes bs
  | .fstr _, bs => .vBytes bs

/-- struct.unpack over a whole format string, each field consuming its
width from the front. -/
def unpackFields : List Fmt → Bytes → List SlimValue
  | [], _ => []
  | f :: fs, bs => unpackFmt f (bs.take (fmtSize f)) :: unpackFields fs (bs.drop (fmtSize f))

/-- one entry of a structure list, split at the colon:
fmt = none models the wildcard format character. -/
structure FieldDef where
  key : String
  fmt : Option Fmt
deriving DecidableEq, Repr

def isStar (d : FieldDef) : Bool := d.fmt.isNone

/-- the schema state of a SlimMessage: the field names (SlimMessage._keys)
and the format characters (SlimMessage._formats).  A wildcard field
contributes a key but no format. -/
structure SlimSchema where
  keys : List String
  formats : List Fmt
deriving DecidableEq, Repr

/-- SlimMessage._has_variable_field: the key count differs from the
format count. -/
def hasVariableField (s : SlimSchema) : Bool := s.keys.length != s.formats.length

/-- SlimMessage.add_field: refuses any field once a variable field is
present, appends the key, and appends the format unless the field is
the wildcard. -/
def addField (s : SlimSchema) (d : FieldDef) : Except String SlimSchema :=
  if hasVariableField s then .error "only the last field can be dynamic"
  else
    match d.fmt with
    | none => .ok ⟨s.keys ++ [d.key], s.formats⟩
    | some f => .ok ⟨s.keys ++ [d.key], s.formats ++ [f]⟩

/-- SlimMessage.__init__: fold add_field over the class structure list,
starting from the empty schema. -/
def buildSchema (defs : List FieldDef) : Except String SlimSchema :=
  List.foldlM addField ⟨[], []⟩ defs

def schemaOrEmpty (defs : List FieldDef) : SlimSchema :=
  match buildSchema defs with
  | .ok s => s
  | .error _ => ⟨[], []⟩

/-- SlimMessage.unpack on the body (header bytes already dropped):
with a variable field the fixed-size front is parsed and the rest is
the wildcard value; without one the body must match the struct size
exactly; a length mismatch raises ValueError. -/
def unpackBody (s : SlimSchema) (body : Bytes) : Except String (List SlimValue) :=
  let sz := structSize s.formats
  let data := if hasVariableField s then body.take sz else body
  if data.length = sz then
    .ok (if hasVariableField s then
           unpackFields s.formats data ++ [.vBytes (body.drop sz)]
         else unpackFields s.formats data)
  else .error "binary data length missmatch with structure length"

/-- SlimMessage.unpack: drop the header bytes, then parse the body. -/
def unpack (s : SlimSchema) (headerSize : Nat) (data : Bytes) : Except String (List SlimValue) :=
  unpackBody s (data.drop headerSize)

/-- bytearray(value, ascii): succeeds on a str value made of code
points below 128 (TypeError on a non-str, UnicodeEncodeError above). -/
def asciiEncode (v : SlimValue) : Except String Bytes :=
  match v with
  | .vStr cs => if cs.all (· < 128) then .ok cs else .error "ascii codec can not encode character"
  | _ => .error "encoding without a string argument"

/-- SlimMessage.pack on the value list (header not yet added): with a
variable field the last value is popped and ASCII-encoded, the rest is
packed by struct and the encoded tail appended. -/
def packBody (s : SlimSchema) (values : List SlimValue) : Except String Bytes := do
  let (fixedValues, variableFieldValue) ←
    if hasVariableField s then
      match values.getLast? with
      | none => (Except.error "pop from empty list" : Except String (List SlimValue × Bytes))
      | some v => do
          let vb ← asciiEncode v
          Except.ok (values.dropLast, vb)
    else Except.ok (values, ([] : Bytes))
  let binarydata ← packFields s.formats fixedValues
  Except.ok (binarydata ++ variableFieldValue)

/-- SlimClientMessage.add_header: pack format 4s I, the upper-cased
name then the body length in four bytes, prepended to the body. -/
def clientAddHeader (name : Bytes) (body : Bytes) : Except String Bytes :=
  if body.length < 2 ^ 32 then
    .ok (padTrunc 4 (asciiUpper name) ++ beBytes 4 body.length ++ body)
  else .error "argument out of range"

/-- SlimServerMessage.add_header: pack format H 4s, the body length
plus four in two bytes then the lower-cased name, prepended to the body. -/
def serverAddHeader (name : Bytes) (body : Bytes) : Except String Bytes :=
  if body.length + 4 < 2 ^ 16 then
    .ok (beBytes 2 (body.length + 4) ++ padTrunc 4 (asciiLower name) ++ body)
  else .error "ushort format requires 0 <= number <= 65535"

/-- SlimClientMessage.name_from_data: bytes 0..3 decoded as ASCII and
lower-cased (struct needs exactly four bytes, decode needs them below
128). -/
def nameFromDataClient (data : Bytes) : Except String Bytes :=
  let slice := data.take 4
  if slice.length = 4 then
    if slice.all (· < 128) then .ok (asciiLower slice)
    else .error "UnicodeDecodeError"
  else .error "unpack requires a buffer of 4 bytes"

/-- SlimServerMessage.name_from_data: bytes 2..5 decoded as ASCII and
lower-cased. -/
def nameFromDataServer (data : Bytes) : Except String Bytes :=
  let slice := (data.drop 2).take 4
  if slice.length = 4 then
    if slice.all (· < 128) then .ok (asciiLower slice)
    else .error "UnicodeDecodeError"
  else .error "unpack requires a buffer of 4 bytes"

/-- the message classes defined in message.py. -/
inductive MsgType where
  | helo
  | bye
  | stat
  | strm
  | aude
  | audg
  | audgSequence
  | setd
deriving DecidableEq, Repr

/-- the structure lists of the message classes, field for field. -/
def msgStructure : MsgType → List FieldDef
  | .helo =>
      [⟨"deviceid", some .uB⟩, ⟨"revision", some .uB⟩, ⟨"mac", some (.fstr 6)⟩,
       ⟨"hostid", some (.fstr 16)⟩, ⟨"wifi", some .uH⟩, ⟨"bytes", some .uQ⟩,
       ⟨"language", some (.fstr 2)⟩]
  | .bye => [⟨"upgrade", some .uB⟩]
  | .stat =>
      [⟨"event_code", some (.fstr 4)⟩, ⟨"crlf", some .uB⟩, ⟨"mas_initialized", some .ch⟩,
       ⟨"mas_mode", some .ch⟩, ⟨"buffer_size", some .uL⟩, ⟨"buffer_fill", some .uL⟩,
       ⟨"bytes_received", some .uQ⟩, ⟨"signal_strength", some .uH⟩, ⟨"jiffies", some .uL⟩,
       ⟨"output_buffer_size", some .uL⟩, ⟨"output_buffer_fill", some .uL⟩,
       ⟨"elapsed_seconds", some .uL⟩, ⟨"voltage", some .uH⟩,
       ⟨"elapsed_milliseconds", some .uL⟩, ⟨"server_timestamp", some .uL⟩,
       ⟨"error_code", some .uH⟩]
  | .strm =>
      [⟨"command", some .ch⟩, ⟨"autostart", some .ch⟩, ⟨"mode", some .ch⟩,
       ⟨"pcm_sample_size", some .ch⟩, ⟨"pcm_sample_rate", some .ch⟩,
       ⟨"pcm_channels", some .ch⟩, ⟨"pcm_endian", some .ch⟩, ⟨"threshold", some .sb⟩,
       ⟨"spdif_enable", some .sb⟩, ⟨"transition_period", some .sb⟩,
       ⟨"transition_type", some .ch⟩, ⟨"flags", some .sb⟩,
       ⟨"output_threshold", some .sb⟩, ⟨"slaves", some .sb⟩, ⟨"replay_gain", some .uL⟩,
       ⟨"server_port", some .uH⟩, ⟨"server_ip", some .uI⟩, ⟨"headers", none⟩]
  | .aude => [⟨"spdif_enable", some .sb⟩, ⟨"dac_enable", some .sb⟩]
  | .audg =>
      [⟨"old_left", some .uL⟩, ⟨"old_right", some .uL⟩,
       ⟨"digitalvolumecontrol", some .uB⟩, ⟨"preamp", some .uB⟩,
       ⟨"new_left", some .uL⟩, ⟨"new_right", some .uL⟩]
  | .audgSequence =>
      [⟨"old_left", some .uL⟩, ⟨"old_right", some .uL⟩,
       ⟨"digitalvolumecontrol", some .uB⟩, ⟨"preamp", some .uB⟩,
       ⟨"new_left", some .uL⟩, ⟨"new_right", some .uL⟩, ⟨"sequence", some .uL⟩]
  | .setd => [⟨"pref_id", some .uB⟩, ⟨"value", none⟩]

def msgSchema (t : MsgType) : SlimSchema := schemaOrEmpty (msgStructure t)

/-- the wire names: derived from the class name, except Bye and
AudgSequence which set the class attribute explicitly. -/
def msgName : MsgType → Bytes
  | .helo => codes "helo"
  | .bye => codes "bye!"
  | .stat => codes "stat"
  | .strm => codes "strm"
  | .aude => codes "aude"
  | .audg => codes "audg"
  | .audgSequence => codes "audg"
  | .setd => codes "setd"

/-- Helo, Bye and Stat derive SlimClientMessage; the rest derive
SlimServerMessage. -/
def isClientMsg : MsgType → Bool
  | .helo => true
  | .bye => true
  | .stat => true
  | _ => false

def serverHeaderSize : Nat := 6

/-- the direct subclasses of SlimServerMessage in definition order, as
enumerated by SlimServerMessage.factory. -/
def serverRegistry : List MsgType := [.strm, .aude, .audg, .audgSequence, .setd]

/-- one iteration of the factory loop: skip a subclass whose name
differs, otherwise attempt to construct it, treating a ValueError from
unpack as a miss. -/
def tryCandidate (messagename data : Bytes) (t : MsgType) :
    Option (MsgType × List SlimValue) :=
  if msgName t = messagename then
    match unpack (msgSchema t) serverHeaderSize data with
    | .ok values => some (t, values)
    | .error _ => none
  else none

/-- SlimServerMessage.factory: extract the name, then try each
subclass whose name matches in order, returning the first whose unpack
succeeds; None if every candidate raises ValueError.  A failure of the
name extraction itself propagates. -/
def factory (data : Bytes) : Except String (Option (MsgType × List SlimValue)) :=
  match nameFromDataServer data with
  | .error e => .error e
  | .ok messagename =>
      .ok (serverRegistry.findSome? (tryCandidate messagename data))

/-- SlimMessage.pack including add_header, for the given message type. -/
def packMessage (t : MsgType) (values : List SlimValue) : Except String Bytes := do
  let body ← packBody (msgSchema t) values
  if isClientMsg t then clientAddHeader (msgName t) body
  else serverAddHeader (msgName t) body

/-! ### The client session (src/slim/client.py) -/

/-- the SlimClient state relevant to connect: the optional connection
handle (a socket id). -/
structure SlimClientState where
  connection : Option Nat
deriving DecidableEq, Repr

def isConnectedState (s : SlimClientState) : Bool := s.connection.isSome

/-- SlimClient.connect: when already connected it only logs, then in
every case opens a fresh socket and overwrites the connection field
(the code has no early return).  Returns the new state and the log
lines emitted. -/
def connect (s : SlimClientState) (freshSocket : Nat) : SlimClientState × List String :=
  let logs := if isConnectedState s then ["already connected"] else []
  (⟨some freshSocket⟩, logs ++ ["connected"])

abbrev Msg := Option (MsgType × List SlimValue)

/-- what one iteration of SlimClient.run observes: either
socket.timeout from receive_message, or a received frame (the factory
result, possibly None). -/
inductive ReadResult where
  | timeout
  | frame (m : Msg)
deriving DecidableEq, Repr

/-- how SlimClient.run ends: return from the timeout branch with the
terminate flag set (no bye), break on the exhausted counter followed
by action_bye, or the supplied event trace ran out (the real loop
would still be blocked reading). -/
inductive RunExit where
  | terminated
  | byeSent
  | starved
deriving DecidableEq, Repr

structure RunOutcome where
  exitKind : RunExit
  dispatched : List Msg
deriving DecidableEq, Repr

/-- the while loop of SlimClient.run, driven by a trace of read
results paired with the value of the terminate flag at that moment:
a timeout returns if the flag is set and retries otherwise; a frame is
dispatched (handle_message) and the counter decremented, breaking to
action_bye when it drops below zero. -/
def runLoop (i : Int) (acc : List Msg) : List (ReadResult × Bool) → RunOutcome
  | [] => ⟨.starved, acc⟩
  | (.timeout, terminate) :: rest =>
      if terminate then ⟨.terminated, acc⟩ else runLoop i acc rest
  | (.frame m, _) :: rest =>
      if i - 1 < 0 then ⟨.byeSent, acc ++ [m]⟩ else runLoop (i - 1) (acc ++ [m]) rest

/-- SlimClient.run after connect and helo: the counter starts at 200. -/
def run (events : List (ReadResult × Bool)) : RunOutcome := runLoop 200 [] events

/-- an event trace in which every read yields a frame and termination
is never requested. -/
def framesOnly (msgs : List Msg) : List (ReadResult × Bool) :=
  msgs.map fun m => (.frame m, false)

/-! ### Validity predicates used to state the claims -/

def isOkb : Except ε α → Bool
  | .ok _ => true
  | .error _ => false

/-- a value lies in the range of its format (struct would accept it
and parsing its bytes gives it back unchanged). -/
def validValue : Fmt → SlimValue → Bool
  | .uB, .vNat n => decide (n < 256)
  | .uH, .vNat n => decide (n < 2 ^ 16)
  | .uL, .vNat n => decide (n < 2 ^ 32)
  | .uI, .vNat n => decide (n < 2 ^ 32)
  | .uQ, .vNat n => decide (n < 2 ^ 64)
  | .sb, .vInt i => decide (-128 ≤ i ∧ i < 128)
  | .ch, .vBytes bs => decide (bs.length = 1)
  | .fstr n, .vBytes bs => decide (bs.length = n)
  | _, _ => false

def validValues : List Fmt → List SlimValue → Bool
  | [], [] => true
  | f :: fs, v :: vs => validValue f v && validValues fs vs
  | _, _ => false

/-- a full assignment the code can pack: the fixed fields in range,
and, when the schema has a wildcard field, an ASCII str value last. -/
def validAssignment (s : SlimSchema) (vs : List SlimValue) : Bool :=
  if hasVariableField s then
    match vs.getLast? with
    | some (.vStr cs) => cs.all (· < 128) && validValues s.formats vs.dropLast
    | _ => false
  else validValues s.formats vs

def wildcardToBytes : SlimValue → SlimValue
  | .vStr cs => .vBytes cs
  | v => v

/-- what decoding an encoded message actually returns: the fixed
fields unchanged, the wildcard str value replaced by its ASCII bytes. -/
def decodeImage (s : SlimSchema) (vs : List SlimValue) : List SlimValue :=
  if hasVariableField s then vs.dropLast ++ [wildcardToBytes (vs.getLast?.getD .vNone)]
  else vs

/-! ### Byte-level lemmas -/

theorem beBytes_length (w n : Nat) : (beBytes w n).length = w := by
  induction w generalizing n with
  | zero => rfl
  | succ w ih => simp [beBytes, ih]

theorem beDecode_append_singleton (bs : Bytes) (b : Nat) :
    beDecode (bs ++ [b]) = beDecode bs * 256 + b := by
  simp [beDecode, List.foldl_append]

theorem beDecode_beBytes (w n : Nat) : beDecode (beBytes w n) = n % 256 ^ w := by
  induction w generalizing n with
  | zero => simp [beBytes, beDecode, Nat.mod_one]
  | succ w ih =>
      rw [beBytes, beDecode_append_singleton, ih]
      have h : (256 : Nat) ^ (w + 1) = 256 * 256 ^ w := by ring
      rw [h, Nat.mod_mul]
      omega

theorem beDecode_beBytes_of_lt {w n : Nat} (h : n < 256 ^ w) :
    beDecode (beBytes w n) = n := by
  rw [beDecode_beBytes, Nat.mod_eq_of_lt h]

theorem asciiLowerChar_upperChar (c : Nat) :
    asciiLowerChar (asciiUpperChar c) = asciiLowerChar c := by
  simp only [asciiUpperChar, asciiLowerChar]
  split <;> (try split) <;> (try split) <;> omega

theorem asciiLowerChar_idem (c : Nat) :
    asciiLowerChar (asciiLowerChar c) = asciiLowerChar c := by
  simp only [asciiLowerChar]
  split <;> (try split) <;> omega

theorem asciiLower_asciiUpper (s : Bytes) : asciiLower (asciiUpper s) = asciiLower s := by
  simp [asciiLower, asciiUpper, Function.comp, asciiLowerChar_upperChar]

theorem asciiLower_idem (s : Bytes) : asciiLower (asciiLower s) = asciiLower s := by
  simp [asciiLower, Function.comp, asciiLowerChar_idem]

theorem asciiUpperChar_lt_128 {c : Nat} (h : c < 128) : asciiUpperChar c < 128 := by
  simp only [asciiUpperChar]; split <;> omega

theorem asciiLowerChar_lt_128 {c : Nat} (h : c < 128) : asciiLowerChar c < 128 := by
  simp only [asciiLowerChar]; split <;> omega

theorem padTrunc_eq_self {n : Nat} {bs : Bytes} (h : bs.length = n) : padTrunc n bs = bs := by
  have hle : bs.length ≤ n := le_of_eq h
  simp [padTrunc, h, List.take_of_length_le hle]

/-! ### Round-trip of single fields and field lists -/

theorem packFmt_roundtrip (f : Fmt) (v : SlimValue) (hv : validValue f v = true) :
    ∃ b, packFmt f v = .ok b ∧ b.length = fmtSize f ∧ unpackFmt f b = v := by
  cases f <;> cases v <;> simp [validValue] at hv
  case uB.vNat n =>
    refine ⟨[n], by simp [packFmt, hv], rfl, ?_⟩
    simp [unpackFmt, beDecode]
  case uH.vNat n =>
    refine ⟨beBytes 2 n, by simp [packFmt, hv], beBytes_length 2 n, ?_⟩
    simp [unpackFmt, beDecode_beBytes_of_lt (show n < 256 ^ 2 by omega)]
  case uL.vNat n =>
    refine ⟨beBytes 4 n, by simp [packFmt, hv], beBytes_length 4 n, ?_⟩
    simp [unpackFmt, beDecode_beBytes_of_lt (show n < 256 ^ 4 by omega)]
  case uI.vNat n =>
    refine ⟨beBytes 4 n, by simp [packFmt, hv], beBytes_length 4 n, ?_⟩
    simp [unpackFmt, beDecode_beBytes_of_lt (show n < 256 ^ 4 by omega)]
  case uQ.vNat n =>
    refine ⟨beBytes 8 n, by simp [packFmt, hv], beBytes_length 8 n, ?_⟩
    simp [unpackFmt, beDecode_beBytes_of_lt (show n < 256 ^ 8 by omega)]
  case sb.vInt i =>
    refine ⟨[(i + 256).toNat % 256], by simp [packFmt, hv.1, hv.2], rfl, ?_⟩
    have hd : beDecode [(i + 256).toNat % 256] = (i + 256).toNat % 256 := by
      simp [beDecode]
    simp only [unpackFmt, hd]
    obtain ⟨h1, h2⟩ := hv
    split <;> (rename_i hcase) <;> (congr 1) <;> omega
  case ch.vBytes bs =>
    exact ⟨bs, by simp [packFmt, hv], by simp [fmtSize, hv], by simp [unpackFmt]⟩
  case fstr.vBytes n bs =>
    refine ⟨bs, ?_, by simp [fmtSize, hv], by simp [unpackFmt]⟩
    simp [packFmt, padTrunc_eq_self hv]

theorem structSize_cons (f : Fmt) (fs : List Fmt) :
    structSize (f :: fs) = fmtSize f + structSize fs := by
  simp [structSize]

theorem packFields_roundtrip :
    ∀ (fs : List Fmt) (vs : List SlimValue), validValues fs vs = true →
      ∃ bs, packFields fs vs = .ok bs ∧ bs.length = structSize fs ∧
        unpackFields fs bs = vs := by
  intro fs
  induction fs with
  | nil =>
      intro vs hv
      cases vs with
      | nil => exact ⟨[], rfl, rfl, rfl⟩
      | cons v vs => simp [validValues] at hv
  | cons f fs ih =>
      intro vs hv
      cases vs with
      | nil => simp [validValues] at hv
      | cons v vs =>
          rw [validValues, Bool.and_eq_true] at hv
          obtain ⟨b, hpack, hlen, hun⟩ := packFmt_roundtrip f v hv.1
          obtain ⟨bs, hpacks, hlens, huns⟩ := ih vs hv.2
          refine ⟨b ++ bs, ?_, ?_, ?_⟩
          · simp only [packFields, hpack, hpacks]; rfl
          · simp [structSize_cons, List.length_append, hlen, hlens]
          · have ht : (b ++ bs).take (fmtSize f) = b := by
              rw [← hlen]; exact List.take_left _ _
            have hd : (b ++ bs).drop (fmtSize f) = bs := by
              rw [← hlen]; exact List.drop_left _ _
            simp [unpackFields, ht, hd, hun, huns]

/-! ### Behaviour of unpackBody -/

theorem unpackBody_no_var_ok {s : SlimSchema} (h : hasVariableField s = false)
    {body : Bytes} (hl : body.length = structSize s.formats) :
    unpackBody s body = .ok (unpackFields s.formats body) := by
  simp [unpackBody, h, hl]

theorem unpackBody_no_var_error {s : SlimSchema} (h : hasVariableField s = false)
    {body : Bytes} (hl : body.length ≠ structSize s.formats) :
    unpackBody s body = .error "binary data length missmatch with structure length" := by
  simp [unpackBody, h, hl]

theorem unpackBody_var_ok {s : SlimSchema} (h : hasVariableField s = true)
    {body : Bytes} (hl : structSize s.formats ≤ body.length) :
    unpackBody s body =
      .ok (unpackFields s.formats (body.take (structSize s.formats)) ++
           [.vBytes (body.drop (structSize s.formats))]) := by
  have hlen : (body.take (structSize s.formats)).length = structSize s.formats := by
    simp [List.length_take]; omega
  simp [unpackBody, h, hlen]

theorem unpackBody_var_error {s : SlimSchema} (h : hasVariableField s = true)
    {body : Bytes} (hl : body.length < structSize s.formats) :
    unpackBody s body = .error "binary data length missmatch with structure length" := by
  have hlen : (body.take (structSize s.formats)).length ≠ structSize s.formats := by
    simp [List.length_take]; omega
  simp [unpackBody, h, hlen]
  omega

/-- pack followed by unpack, for any schema: the fixed fields come
back unchanged, a wildcard str value comes back as its ASCII bytes. -/
theorem packBody_unpackBody (s : SlimSchema) (vs : List SlimValue)
    (hv : validAssignment s vs = true) :
    ∃ body, packBody s vs = .ok body ∧
      unpackBody s body = .ok (decodeImage s vs) := by
  cases hhv : hasVariableField s with
  | false =>
      simp only [validAssignment, hhv, Bool.false_eq_true, if_false] at hv
      obtain ⟨bs, hp, hl, hu⟩ := packFields_roundtrip _ _ hv
      refine ⟨bs, ?_, ?_⟩
      · simp [packBody, hhv, hp, Bind.bind, Except.bind]
      · rw [unpackBody_no_var_ok hhv hl, hu]
        simp [decodeImage, hhv]
  | true =>
      simp only [validAssignment, hhv, if_true] at hv
      cases hlast : vs.getLast? with
      | none => rw [hlast] at hv; simp at hv
      | some v =>
          rw [hlast] at hv
          cases v with
          | vStr cs =>
              rw [Bool.and_eq_true] at hv
              obtain ⟨bs, hp, hl, hu⟩ := packFields_roundtrip _ _ hv.2
              refine ⟨bs ++ cs, ?_, ?_⟩
              · simp [packBody, hhv, hlast, asciiEncode, hv.1, hp, Bind.bind, Except.bind]
              · have hsz : structSize s.formats ≤ (bs ++ cs).length := by
                  simp [List.length_append, hl]
                rw [unpackBody_var_ok hhv hsz]
                have ht : (bs ++ cs).take (structSize s.formats) = bs := by
                  rw [← hl]; exact List.take_left _ _
                have hd : (bs ++ cs).drop (structSize s.formats) = cs := by
                  rw [← hl]; exact List.drop_left _ _
                rw [ht, hd, hu]
                simp [decodeImage, hhv, hlast, wildcardToBytes]
          | vNat n => simp at hv
          | vInt i => simp at hv
          | vBytes bs => simp at hv
          | vNone => simp at hv

/-- C4: decoding a headerless body fails with the length-mismatch
error exactly when the body is shorter than the fixed size, or the
schema has no wildcard and the body is longer; otherwise it succeeds
and all bytes beyond the fixed front go to the wildcard field. -/
theorem spec_C4 (s : SlimSchema) (body : Bytes) :
    (isOkb (unpackBody s body) = false ↔
        (body.length < structSize s.formats ∨
          (hasVariableField s = false ∧ structSize s.formats < body.length))) ∧
    (hasVariableField s = true → structSize s.formats ≤ body.length →
        unpackBody s body =
          .ok (unpackFields s.formats (body.take (structSize s.formats)) ++
               [.vBytes (body.drop (structSize s.formats))])) ∧
    (hasVariableField s = false → body.length = structSize s.formats →
        unpackBody s body = .ok (unpackFields s.formats body)) := by
  refine ⟨?_, fun h hl => unpackBody_var_ok h hl, fun h hl => unpackBody_no_var_ok h hl⟩
  cases hhv : hasVariableField s with
  | true =>
      by_cases hlt : body.length < structSize s.formats
      · rw [unpackBody_var_error hhv hlt]
        simp [isOkb, hhv, hlt]
      · rw [unpackBody_var_ok hhv (by omega)]
        simp [isOkb, hhv]
        omega
  | false =>
      by_cases heq : body.length = structSize s.formats
      · rw [unpackBody_no_var_ok hhv heq]
        simp [isOkb, hhv]
        omega
      · rw [unpackBody_no_var_error hhv heq]
        simp [isOkb, hhv]
        omega

theorem spec_C4_witness :
    unpackBody (msgSchema .setd) [5, 7, 9] =
      .ok (unpackFields (msgSchema .setd).formats
            (([5, 7, 9] : Bytes).take (structSize (msgSchema .setd).formats)) ++
           [.vBytes (([5, 7, 9] : Bytes).drop (structSize (msgSchema .setd).formats))]) :=
  (spec_C4 (msgSchema .setd) [5, 7, 9]).2.1 (by decide) (by decide)

/-- C3 (amended): for every registered schema and valid assignment,
decoding the encoded bytes restores every fixed field exactly; the
wildcard value, supplied as an ASCII str, is returned as its byte
encoding (for schemas without a wildcard the round trip is exact). -/
theorem spec_C3 (t : MsgType) (vs : List SlimValue)
    (hv : validAssignment (msgSchema t) vs = true) :
    ∃ body, packBody (msgSchema t) vs = .ok body ∧
      unpackBody (msgSchema t) body = .ok (decodeImage (msgSchema t) vs) :=
  packBody_unpackBody (msgSchema t) vs hv

theorem spec_C3_witness :
    ∃ body, packBody (msgSchema .setd) [.vNat 3, .vStr [104, 105]] = .ok body ∧
      unpackBody (msgSchema .setd) body =
        .ok (decodeImage (msgSchema .setd) [.vNat 3, .vStr [104, 105]]) :=
  spec_C3 .setd [.vNat 3, .vStr [104, 105]] (by decide)

/-- C3 as stated is false: a Setd message whose wildcard holds the
empty payload encodes to a single byte, but decoding gives the
wildcard back as a bytes value, not the str value that was packed;
and a bytes wildcard value cannot be encoded at all. -/
theorem spec_C3_counterexample :
    packBody (msgSchema .setd) [.vNat 0, .vStr []] = .ok [0] ∧
    unpackBody (msgSchema .setd) [0] = .ok [.vNat 0, .vBytes []] ∧
    (SlimValue.vBytes [] ≠ SlimValue.vStr []) ∧
    packBody (msgSchema .setd) [.vNat 0, .vBytes []] =
      .error "encoding without a string argument" :=
  ⟨rfl, rfl, by decide, rfl⟩

/-! ### Schema construction -/

theorem addField_error_of_var (s : SlimSchema) (d : FieldDef)
    (h : hasVariableField s = true) :
    addField s d = .error "only the last field can be dynamic" := by
  simp [addField, h]

theorem addField_ok_not_var {s s' : SlimSchema} {d : FieldDef}
    (h : addField s d = .ok s') : hasVariableField s = false := by
  cases hv : hasVariableField s with
  | false => rfl
  | true => rw [addField_error_of_var s d hv] at h; exact absurd h (by simp)

theorem addField_star_ok {s s' : SlimSchema} {d : FieldDef}
    (hok : addField s d = .ok s') (hd : d.fmt = none) :
    s' = ⟨s.keys ++ [d.key], s.formats⟩ := by
  have hv := addField_ok_not_var hok
  simp [addField, hv, hd] at hok
  exact hok.symm

theorem hasVariableField_after_star {s : SlimSchema} (hv : hasVariableField s = false)
    (k : String) : hasVariableField ⟨s.keys ++ [k], s.formats⟩ = true := by
  have hv' : s.keys.length = s.formats.length := by
    simpa [hasVariableField, bne_eq_false_iff_eq] using hv
  simp only [hasVariableField, bne_iff_ne, ne_eq, List.length_append,
    List.length_singleton]
  omega

theorem foldlM_error_of_var (s : SlimSchema) (h : hasVariableField s = true)
    (d : FieldDef) (rest : List FieldDef) :
    List.foldlM addField s (d :: rest) = .error "only the last field can be dynamic" := by
  rw [List.foldlM_cons, addField_error_of_var s d h]
  rfl

/-- in any successful fold of add_field, a wildcard definition can
only sit at the last position. -/
theorem foldlM_star_last :
    ∀ (defs : List FieldDef) (s0 s' : SlimSchema),
      List.foldlM addField s0 defs = .ok s' →
      ∀ i (h : i < defs.length), isStar (defs.get ⟨i, h⟩) = true → i + 1 = defs.length := by
  intro defs
  induction defs with
  | nil => intro s0 s' hok i h; exact absurd h (by simp)
  | cons d rest ih =>
      intro s0 s' hok i h hstar
      rw [List.foldlM_cons] at hok
      cases had : addField s0 d with
      | error e => rw [had] at hok; exact absurd hok (by simp [Bind.bind, Except.bind])
      | ok s1 =>
          rw [had] at hok
          have hrest : List.foldlM addField s1 rest = .ok s' := by
            simpa [Bind.bind, Except.bind] using hok
          cases i with
          | zero =>
              have hd : d.fmt = none := by
                have : isStar d = true := by simpa using hstar
                simpa [isStar, Option.isNone_iff_eq_none] using this
              have hs1 : s1 = ⟨s0.keys ++ [d.key], s0.formats⟩ := addField_star_ok had hd
              have hvar : hasVariableField s1 = true := by
                rw [hs1]
                exact hasVariableField_after_star (addField_ok_not_var had) d.key
              cases rest with
              | nil => simp
              | cons r rs =>
                  rw [foldlM_error_of_var s1 hvar r rs] at hrest
                  exact absurd hrest (by simp)
          | succ j =>
              have hj := ih s1 s' hrest j (by simpa using h) (by simpa using hstar)
              simpa using hj

/-- C7: once the last field is a wildcard, add_field rejects any
further field; consequently, in every structure list that builds
successfully, a wildcard definition is the last definition. -/
theorem spec_C7 :
    (∀ (s : SlimSchema) (d : FieldDef), hasVariableField s = true →
        addField s d = .error "only the last field can be dynamic") ∧
    (∀ (defs : List FieldDef) (s' : SlimSchema), buildSchema defs = .ok s' →
        ∀ i (h : i < defs.length), isStar (defs.get ⟨i, h⟩) = true →
          i + 1 = defs.length) :=
  ⟨addField_error_of_var, fun defs s' hok => foldlM_star_last defs ⟨[], []⟩ s' hok⟩

theorem spec_C7_witness :
    addField ⟨["payload"], []⟩ ⟨"extra", some Fmt.uB⟩ =
      .error "only the last field can be dynamic" ∧
    0 + 1 = List.length [FieldDef.mk "value" none] :=
  ⟨spec_C7.1 ⟨["payload"], []⟩ ⟨"extra", some Fmt.uB⟩ (by decide),
   spec_C7.2 [⟨"value", none⟩] ⟨["value"], []⟩ rfl 0 (by decide) (by decide)⟩

/-- C6 as stated is false: add_field has no duplicate-name check;
adding a field whose name is already present succeeds and appends the
duplicate name, changing the schema. -/
theorem spec_C6_counterexample :
    "a" ∈ (SlimSchema.mk ["a"] [Fmt.uB]).keys ∧
    addField ⟨["a"], [Fmt.uB]⟩ ⟨"a", some Fmt.uB⟩ =
      .ok ⟨["a", "a"], [Fmt.uB, Fmt.uB]⟩ :=
  ⟨by simp, rfl⟩

/-- C6 (amended): defining a field whose name is already present does
not fail: whenever the schema does not already end in a wildcard, the
call succeeds and appends the duplicate name. -/
theorem spec_C6 (s : SlimSchema) (d : FieldDef) (hmem : d.key ∈ s.keys)
    (h : hasVariableField s = false) :
    ∃ s', addField s d = .ok s' ∧ s'.keys = s.keys ++ [d.key] := by
  cases hd : d.fmt with
  | none => exact ⟨⟨s.keys ++ [d.key], s.formats⟩, by simp [addField, h, hd], rfl⟩
  | some f => exact ⟨⟨s.keys ++ [d.key], s.formats ++ [f]⟩, by simp [addField, h, hd], rfl⟩

theorem spec_C6_witness :
    ∃ s', addField ⟨["a"], [Fmt.uB]⟩ ⟨"a", some Fmt.uB⟩ = .ok s' ∧
      s'.keys = ["a"] ++ ["a"] :=
  spec_C6 ⟨["a"], [Fmt.uB]⟩ ⟨"a", some Fmt.uB⟩ (by simp) (by decide)

/-! ### The client session -/

/-- C5 is contradicted by the code: with a connection already present
(socket 7), connect() emits the already-connected log line but still
opens a fresh socket (8) and overwrites the stored connection. -/
theorem spec_C5 :
    isConnectedState ⟨some 7⟩ = true ∧
    connect ⟨some 7⟩ 8 = (⟨some 8⟩, ["already connected", "connected"]) ∧
    (connect ⟨some 7⟩ 8).1.connection ≠ some 7 :=
  ⟨rfl, rfl, by simp [connect, isConnectedState]⟩

/-- C8: a timeout with the terminate flag clear makes the loop retry
the next read; a timeout with it set exits the loop; a received frame
is handled identically whatever the flag says, so the flag is only
consulted in the timeout branch. -/
theorem spec_C8 (i : Int) (acc : List Msg) (rest : List (ReadResult × Bool))
    (m : Msg) (b b' : Bool) :
    (runLoop i acc ((.timeout, false) :: rest) = runLoop i acc rest) ∧
    (runLoop i acc ((.timeout, true) :: rest) = ⟨.terminated, acc⟩) ∧
    (runLoop i acc ((.frame m, b) :: rest) = runLoop i acc ((.frame m, b') :: rest)) := by
  refine ⟨?_, ?_, ?_⟩ <;> simp [runLoop]

theorem runLoop_frames (msgs : List Msg) :
    ∀ (i : Int) (acc : List Msg), 0 ≤ i →
      runLoop i acc (framesOnly msgs) =
        if msgs.length ≤ i.toNat then ⟨.starved, acc ++ msgs⟩
        else ⟨.byeSent, acc ++ msgs.take (i.toNat + 1)⟩ := by
  induction msgs with
  | nil => intro i acc hi; simp [framesOnly, runLoop]
  | cons m rest ih =>
      intro i acc hi
      simp only [framesOnly, List.map_cons, runLoop]
      by_cases hz : i - 1 < 0
      · rw [if_pos hz, if_neg (by simp; omega)]
        have h1 : i.toNat + 1 = 1 := by omega
        simp [h1]
      · have h1 : (0 : Int) ≤ i - 1 := by omega
        rw [if_neg hz]
        have hrec := ih (i - 1) (acc ++ [m]) h1
        rw [show framesOnly rest = rest.map (fun m => (ReadResult.frame m, false)) from rfl] at hrec
        rw [hrec]
        have hit : (i - 1).toNat = i.toNat - 1 := by omega
        have hge : 1 ≤ i.toNat := by omega
        by_cases hc : rest.length ≤ (i - 1).toNat
        · rw [if_pos hc, if_pos (by simp; omega)]
          simp
        · rw [if_neg hc, if_neg (by simp; omega)]
          have hsucc : (i - 1).toNat + 1 + 1 = i.toNat + 1 := by omega
          have htake : (m :: rest).take (i.toNat + 1) = m :: rest.take ((i - 1).toNat + 1) := by
            rw [← hsucc, List.take_succ_cons]
          simp [htake]

/-- C10: with every read yielding a frame and no termination request,
the loop dispatches at most 201 messages; with at least 201 frames
available it dispatches exactly the first 201 and then sends bye, and
with at most 200 it consumes them all without exiting. -/
theorem spec_C10 (msgs : List Msg) :
    ((run (framesOnly msgs)).dispatched.length ≤ 201) ∧
    (201 ≤ msgs.length → run (framesOnly msgs) = ⟨.byeSent, msgs.take 201⟩) ∧
    (msgs.length ≤ 200 → run (framesOnly msgs) = ⟨.starved, msgs⟩) := by
  have h := runLoop_frames msgs 200 [] (by omega)
  have ht : (200 : Int).toNat = 200 := rfl
  rw [ht] at h
  rw [run] at *
  refine ⟨?_, ?_, ?_⟩
  · rw [h]
    by_cases hc : msgs.length ≤ 200
    · rw [if_pos hc]; simpa using by omega
    · rw [if_neg hc]
      simp [List.length_take]
  · intro h201
    rw [h, if_neg (by omega)]
    simp
  · intro h200
    rw [h, if_pos h200]
    simp

theorem spec_C10_witness :
    run (framesOnly (List.replicate 201 (none : Msg))) =
      ⟨.byeSent, (List.replicate 201 (none : Msg)).take 201⟩ :=
  (spec_C10 (List.replicate 201 (none : Msg))).2.1
    (by rw [List.length_replicate])

/-! ### Headers -/

theorem asciiUpper_all_lt_128 {name : Bytes} (ha : ∀ c ∈ name, c < 128) :
    ∀ c ∈ asciiUpper name, c < 128 := by
  intro c hc
  obtain ⟨x, hx, rfl⟩ := List.mem_map.mp hc
  exact asciiUpperChar_lt_128 (ha x hx)

theorem asciiLower_all_lt_128 {name : Bytes} (ha : ∀ c ∈ name, c < 128) :
    ∀ c ∈ asciiLower name, c < 128 := by
  intro c hc
  obtain ⟨x, hx, rfl⟩ := List.mem_map.mp hc
  exact asciiLowerChar_lt_128 (ha x hx)

/-- C1: the client header is the four upper-cased name bytes then the
body length in four big-endian bytes (header excluded from the
count); the server header is the body length plus four in two
big-endian bytes then the four lower-cased name bytes; both headers
decode back exactly (name extraction and length field). -/
theorem spec_C1 (name body : Bytes) (hn : name.length = 4)
    (ha : ∀ c ∈ name, c < 128)
    (hcl : body.length < 2 ^ 32) (hsl : body.length + 4 < 2 ^ 16) :
    ∃ cframe sframe,
      clientAddHeader name body = .ok cframe ∧
      cframe = asciiUpper name ++ beBytes 4 body.length ++ body ∧
      nameFromDataClient cframe = .ok (asciiLower name) ∧
      beDecode ((cframe.drop 4).take 4) = body.length ∧
      cframe.drop 8 = body ∧
      serverAddHeader name body = .ok sframe ∧
      sframe = beBytes 2 (body.length + 4) ++ asciiLower name ++ body ∧
      nameFromDataServer sframe = .ok (asciiLower name) ∧
      beDecode (sframe.take 2) = body.length + 4 ∧
      sframe.drop 6 = body := by
  have hu : (asciiUpper name).length = 4 := by simp [asciiUpper, hn]
  have hl : (asciiLower name).length = 4 := by simp [asciiLower, hn]
  have hb4 : (beBytes 4 body.length).length = 4 := beBytes_length 4 body.length
  have hb2 : (beBytes 2 (body.length + 4)).length = 2 := beBytes_length 2 _
  refine ⟨asciiUpper name ++ beBytes 4 body.length ++ body,
          beBytes 2 (body.length + 4) ++ asciiLower name ++ body,
          ?_, rfl, ?_, ?_, ?_, ?_, rfl, ?_, ?_, ?_⟩
  · simp only [clientAddHeader]
    rw [if_pos hcl, padTrunc_eq_self hu]
  · have htake : (asciiUpper name ++ beBytes 4 body.length ++ body).take 4 =
        asciiUpper name := by
      rw [List.append_assoc]; exact List.take_left' hu
    have hall : (asciiUpper name).all (fun c => decide (c < 128)) = true := by
      rw [List.all_eq_true]
      intro c hc
      exact decide_eq_true (asciiUpper_all_lt_128 ha c hc)
    simp [nameFromDataClient, htake, hu, hall, asciiLower_asciiUpper]
  · rw [List.append_assoc, List.drop_left' hu, List.take_left' hb4]
    have h4 : (256 : Nat) ^ 4 = 2 ^ 32 := by norm_num
    exact beDecode_beBytes_of_lt (h4 ▸ hcl)
  · have h8 : (asciiUpper name ++ beBytes 4 body.length).length = 8 := by
      rw [List.length_append, hu, hb4]
    exact List.drop_left' h8
  · simp only [serverAddHeader]
    rw [if_pos hsl, padTrunc_eq_self hl]
  · have hdrop2 : (beBytes 2 (body.length + 4) ++ asciiLower name ++ body).drop 2 =
        asciiLower name ++ body := by
      rw [List.append_assoc]; exact List.drop_left' hb2
    have hslice : ((beBytes 2 (body.length + 4) ++ asciiLower name ++ body).drop 2).take 4 =
        asciiLower name := by
      rw [hdrop2]; exact List.take_left' hl
    have hall : (asciiLower name).all (fun c => decide (c < 128)) = true := by
      rw [List.all_eq_true]
      intro c hc
      exact decide_eq_true (asciiLower_all_lt_128 ha c hc)
    simp only [nameFromDataServer, hslice, hl, hall, asciiLower_idem]
    simp
  · rw [List.append_assoc, List.take_left' hb2]
    have h2 : (256 : Nat) ^ 2 = 2 ^ 16 := by norm_num
    exact beDecode_beBytes_of_lt (h2 ▸ hsl)
  · have h6 : (beBytes 2 (body.length + 4) ++ asciiLower name).length = 6 := by
      rw [List.length_append, hb2, hl]
    exact List.drop_left' h6

theorem spec_C1_witness :
    ∃ cframe sframe,
      clientAddHeader [104, 101, 108, 111] [1, 2, 3] = .ok cframe ∧
      cframe = asciiUpper [104, 101, 108, 111] ++ beBytes 4 ([1, 2, 3] : Bytes).length ++ [1, 2, 3] ∧
      nameFromDataClient cframe = .ok (asciiLower [104, 101, 108, 111]) ∧
      beDecode ((cframe.drop 4).take 4) = ([1, 2, 3] : Bytes).length ∧
      cframe.drop 8 = [1, 2, 3] ∧
      serverAddHeader [104, 101, 108, 111] [1, 2, 3] = .ok sframe ∧
      sframe = beBytes 2 (([1, 2, 3] : Bytes).length + 4) ++ asciiLower [104, 101, 108, 111] ++ [1, 2, 3] ∧
      nameFromDataServer sframe = .ok (asciiLower [104, 101, 108, 111]) ∧
      beDecode (sframe.take 2) = ([1, 2, 3] : Bytes).length + 4 ∧
      sframe.drop 6 = [1, 2, 3] :=
  spec_C1 [104, 101, 108, 111] [1, 2, 3] (by decide) (by decide) (by decide) (by decide)

/-! ### The factory -/

theorem nameFromDataServer_ok_length {data nm : Bytes}
    (h : nameFromDataServer data = .ok nm) : 6 ≤ data.length := by
  by_contra hc
  push_neg at hc
  have hne : ((data.drop 2).take 4).length ≠ 4 := by
    simp [List.length_take, List.length_drop]
    omega
  simp only [nameFromDataServer] at h
  rw [if_neg hne] at h
  exact absurd h (by simp)

theorem tryCandidate_name_ne {nm data : Bytes} {t : MsgType}
    (hne : msgName t ≠ nm) : tryCandidate nm data t = none := by
  simp [tryCandidate, hne]

theorem tryCandidate_ok {nm data : Bytes} {t : MsgType} {vals : List SlimValue}
    (hnm : msgName t = nm)
    (hok : unpack (msgSchema t) serverHeaderSize data = .ok vals) :
    tryCandidate nm data t = some (t, vals) := by
  simp [tryCandidate, hnm, hok]

theorem tryCandidate_error {nm data : Bytes} {t : MsgType} {e : String}
    (hnm : msgName t = nm)
    (herr : unpack (msgSchema t) serverHeaderSize data = .error e) :
    tryCandidate nm data t = none := by
  simp [tryCandidate, hnm, herr]

/-- C2: a received frame whose extracted name is audg is resolved by
trying the candidates in registry order: a 24-byte frame (18-byte
body) becomes the plain Audg message, a 28-byte frame (22-byte body)
becomes AudgSequence, and any other size exhausts the candidates and
yields None (the UnknownMessage outcome); a name with a wildcard
candidate (setd) accepts any body at least as long as its fixed size. -/
theorem spec_C2 (data : Bytes) :
    (nameFromDataServer data = .ok (codes "audg") →
      ((data.length = 24 →
          factory data =
            .ok (some (.audg, unpackFields (msgSchema .audg).formats (data.drop 6)))) ∧
       (data.length = 28 →
          factory data =
            .ok (some (.audgSequence,
              unpackFields (msgSchema .audgSequence).formats (data.drop 6)))) ∧
       (data.length ≠ 24 → data.length ≠ 28 → factory data = .ok none))) ∧
    (nameFromDataServer data = .ok (codes "setd") →
      ((7 ≤ data.length →
          factory data =
            .ok (some (.setd,
              unpackFields (msgSchema .setd).formats ((data.drop 6).take 1) ++
                [.vBytes ((data.drop 6).drop 1)]))) ∧
       (data.length < 7 → factory data = .ok none))) := by
  have hsza : structSize (msgSchema MsgType.audg).formats = 18 := by decide
  have hszq : structSize (msgSchema MsgType.audgSequence).formats = 22 := by decide
  have hszs : structSize (msgSchema MsgType.setd).formats = 1 := by decide
  constructor
  · intro hname
    have h6 := nameFromDataServer_ok_length hname
    have hstrm : tryCandidate (codes "audg") data .strm = none :=
      tryCandidate_name_ne (by decide)
    have haude : tryCandidate (codes "audg") data .aude = none :=
      tryCandidate_name_ne (by decide)
    have hsetd : tryCandidate (codes "audg") data .setd = none :=
      tryCandidate_name_ne (by decide)
    refine ⟨?_, ?_, ?_⟩
    · intro h24
      have hlen : (data.drop 6).length = structSize (msgSchema MsgType.audg).formats := by
        rw [List.length_drop, hsza]; omega
      have ha : tryCandidate (codes "audg") data .audg =
          some (.audg, unpackFields (msgSchema .audg).formats (data.drop 6)) :=
        tryCandidate_ok rfl (by rw [unpack]; exact unpackBody_no_var_ok (by decide) hlen)
      simp [factory, hname, serverRegistry, List.findSome?_cons, hstrm, haude, ha]
    · intro h28
      have hlena : (data.drop 6).length ≠ structSize (msgSchema MsgType.audg).formats := by
        rw [List.length_drop, hsza]; omega
      have ha : tryCandidate (codes "audg") data .audg = none :=
        tryCandidate_error rfl (by rw [unpack]; exact unpackBody_no_var_error (by decide) hlena)
      have hlenq : (data.drop 6).length = structSize (msgSchema MsgType.audgSequence).formats := by
        rw [List.length_drop, hszq]; omega
      have hq : tryCandidate (codes "audg") data .audgSequence =
          some (.audgSequence, unpackFields (msgSchema .audgSequence).formats (data.drop 6)) :=
        tryCandidate_ok rfl (by rw [unpack]; exact unpackBody_no_var_ok (by decide) hlenq)
      simp [factory, hname, serverRegistry, List.findSome?_cons, hstrm, haude, ha, hq]
    · intro hn24 hn28
      have hlena : (data.drop 6).length ≠ structSize (msgSchema MsgType.audg).formats := by
        rw [List.length_drop, hsza]; omega
      have ha : tryCandidate (codes "audg") data .audg = none :=
        tryCandidate_error rfl (by rw [unpack]; exact unpackBody_no_var_error (by decide) hlena)
      have hlenq : (data.drop 6).length ≠ structSize (msgSchema MsgType.audgSequence).formats := by
        rw [List.length_drop, hszq]; omega
      have hq : tryCandidate (codes "audg") data .audgSequence = none :=
        tryCandidate_error rfl (by rw [unpack]; exact unpackBody_no_var_error (by decide) hlenq)
      simp [factory, hname, serverRegistry, List.findSome?_cons, List.findSome?_nil,
        hstrm, haude, ha, hq, hsetd]
  · intro hname
    have h6 := nameFromDataServer_ok_length hname
    have hstrm : tryCandidate (codes "setd") data .strm = none :=
      tryCandidate_name_ne (by decide)
    have haude : tryCandidate (codes "setd") data .aude = none :=
      tryCandidate_name_ne (by decide)
    have ha : tryCandidate (codes "setd") data .audg = none :=
      tryCandidate_name_ne (by decide)
    have hq : tryCandidate (codes "setd") data .audgSequence = none :=
      tryCandidate_name_ne (by decide)
    constructor
    · intro h7
      have hlen : structSize (msgSchema MsgType.setd).formats ≤ (data.drop 6).length := by
        rw [List.length_drop, hszs]; omega
      have hs : tryCandidate (codes "setd") data .setd =
          some (.setd,
            unpackFields (msgSchema .setd).formats ((data.drop 6).take 1) ++
              [.vBytes ((data.drop 6).drop 1)]) := by
        refine tryCandidate_ok rfl ?_
        rw [unpack]
        have h := unpackBody_var_ok (s := msgSchema .setd) (by decide) hlen
        rwa [hszs] at h
      simp [factory, hname, serverRegistry, List.findSome?_cons, hstrm, haude, ha, hq, hs]
    · intro h7
      have hlen : (data.drop 6).length < structSize (msgSchema MsgType.setd).formats := by
        rw [List.length_drop, hszs]; omega
      have hs : tryCandidate (codes "setd") data .setd = none :=
        tryCandidate_error rfl (by rw [unpack]; exact unpackBody_var_error (by decide) hlen)
      simp [factory, hname, serverRegistry, List.findSome?_cons, List.findSome?_nil,
        hstrm, haude, ha, hq, hs]

theorem spec_C2_witness :
    factory ([0, 22] ++ [97, 117, 100, 103] ++ List.replicate 22 0) =
      .ok (some (.audgSequence,
        unpackFields (msgSchema .audgSequence).formats
          (([0, 22] ++ [97, 117, 100, 103] ++ List.replicate 22 0 : Bytes).drop 6))) :=
  ((spec_C2 ([0, 22] ++ [97, 117, 100, 103] ++ List.replicate 22 0)).1
    (by rfl)).2.1 (by decide)

/-! ### The handshake frame -/

/-- C9: packing the Helo message with device class 12, firmware
revision 0, the MAC 00:11:22:33:44:55 and language en (whatever the
host id, channel bitmap and byte counter are) yields the bytes HELO,
then the length 36 in four big-endian bytes, then the 36-byte body —
36 being the fixed size of the handshake schema. -/
theorem spec_C9 (hostid : Bytes) (wifi bytesreceived : Nat)
    (hh : hostid.length = 16) (hw : wifi < 2 ^ 16) (hb : bytesreceived < 2 ^ 64) :
    structSize (msgSchema .helo).formats = 36 ∧
    ∃ body,
      packMessage .helo
        [.vNat 12, .vNat 0, .vBytes [0, 17, 34, 51, 68, 85], .vBytes hostid,
         .vNat wifi, .vNat bytesreceived, .vBytes [101, 110]] =
        .ok ([72, 69, 76, 79] ++ [0, 0, 0, 36] ++ body) ∧
      body.length = 36 := by
  refine ⟨by decide, ?_⟩
  have hval : validValues (msgSchema .helo).formats
      [.vNat 12, .vNat 0, .vBytes [0, 17, 34, 51, 68, 85], .vBytes hostid,
       .vNat wifi, .vNat bytesreceived, .vBytes [101, 110]] = true := by
    have hf : (msgSchema .helo).formats =
        [Fmt.uB, Fmt.uB, Fmt.fstr 6, Fmt.fstr 16, Fmt.uH, Fmt.uQ, Fmt.fstr 2] := by decide
    rw [hf]
    simp [validValues, validValue, hh, hw, hb]
    omega
  obtain ⟨bs, hp, hl, _⟩ := packFields_roundtrip _ _ hval
  have hlen36 : bs.length = 36 := by rw [hl]; decide
  refine ⟨bs, ?_, hlen36⟩
  have hbody : packBody (msgSchema .helo)
      [.vNat 12, .vNat 0, .vBytes [0, 17, 34, 51, 68, 85], .vBytes hostid,
       .vNat wifi, .vNat bytesreceived, .vBytes [101, 110]] = .ok bs := by
    simp [packBody, (by decide : hasVariableField (msgSchema .helo) = false), hp,
      Bind.bind, Except.bind]
  simp only [packMessage, hbody, Bind.bind, Except.bind]
  rw [if_pos (show isClientMsg MsgType.helo = true from rfl)]
  simp only [clientAddHeader, hlen36]
  have hhdr : padTrunc 4 (asciiUpper (msgName .helo)) = [72, 69, 76, 79] := by decide
  have hbe : beBytes 4 36 = [0, 0, 0, 36] := by decide
  rw [if_pos (show (36 : Nat) < 2 ^ 32 by norm_num), hhdr, hbe]

theorem spec_C9_witness :
    structSize (msgSchema .helo).formats = 36 ∧
    ∃ body,
      packMessage .helo
        [.vNat 12, .vNat 0, .vBytes [0, 17, 34, 51, 68, 85],
         .vBytes (List.replicate 16 0), .vNat 2047, .vNat 0, .vBytes [101, 110]] =
        .ok ([72, 69, 76, 79] ++ [0, 0, 0, 36] ++ body) ∧
      body.length = 36 :=
  spec_C9 (List.replicate 16 0) 2047 0 (by decide) (by decide) (by decide)

end Slim
